import Mathlib

/-!
Shallow embedding of the vanity-keypair generator (`src/main.go`, package
`main`) and of the older variant of the same program (`src/unnamed/part_000`).

The program has two parts:

* `generateVanityKeypair(ctx, suffix, workers)`: trims the suffix with
  `strings.TrimSpace`, spawns `workers` goroutines that repeatedly sample a
  fresh Solana account, base58-encode its public key and test
  `strings.HasSuffix(pub, suffix)`; the first match is sent on a buffered
  channel of capacity 1, and the main select returns either that keypair
  (nil error) or, when the context is done first, the zero `Keypair{}`
  together with `ctx.Err()`.

* `maintainUnpickedKeys(db, target, suffix, sleepDur, workers)`: an infinite
  control loop that counts unpicked rows, sleeps when the count reaches the
  target, and otherwise repeatedly searches and inserts (with
  `ON CONFLICT (public_key) DO NOTHING`) until a re-count reaches the target.

The sampler (`types.NewAccount` + `base58.Encode`) is an external library;
it is modelled abstractly as a per-worker stream of already-encoded keypairs.
Where a property depends on the shape of real base58 output (no whitespace),
that fact is stated as an explicit hypothesis over the base58 alphabet of the
`mr-tron/base58` library.
-/

namespace VanityKeyGen

/-- Model of the Go struct `Keypair { Priv, Pub string }` from `src/main.go`:
both fields are base58 encodings of the generated account's keys. -/
structure Keypair where
  Priv : String
  Pub  : String
deriving DecidableEq, Repr

/-- The Go zero value `Keypair{}`: both string fields empty. -/
def Keypair.zero : Keypair := ⟨"", ""⟩

/-- Whitespace test used by Go's `strings.TrimSpace` (`unicode.IsSpace`),
restricted to the Latin-1 space characters; base58 output and all suffixes in
the claims are ASCII, so the higher Unicode space code points never arise. -/
def isSpaceChar (c : Char) : Bool :=
  c = ' ' || c = '\t' || c = '\n' || c = '\x0b' || c = '\x0c' || c = '\r' ||
  c = '\x85' || c = '\xa0'

/-- Model of `strings.TrimSpace`: drop whitespace from both ends. -/
def trimSpace (s : String) : String :=
  ⟨((s.data.dropWhile isSpaceChar).reverse.dropWhile isSpaceChar).reverse⟩

/-- Model of `strings.HasSuffix(s, suffix)`: exact tail match. -/
def hasSuffix (s suffix : String) : Bool :=
  List.isSuffixOf suffix.data s.data

/-- Model of the suffix test in the older variant
(`src/unnamed/part_000`, `generateVanityKeypair`):
`len(pub) >= len(suffix) && pub[len(pub)-len(suffix):] == suffix`. -/
def tailMatchOld (pub suffix : String) : Bool :=
  decide (suffix.data.length ≤ pub.data.length) &&
  decide (pub.data.drop (pub.data.length - suffix.data.length) = suffix.data)

/-- One worker's sampling loop on its (schedule-ordered) stream of sampled
keypairs: skip non-matching samples, deliver the first match, `none` when the
stream never matches (the real loop would keep sampling). The suffix argument
is the already-trimmed suffix the workers capture. -/
def firstMatch (suffix : String) : List Keypair → Option Keypair
  | [] => none
  | kp :: rest =>
      if hasSuffix kp.Pub suffix then some kp else firstMatch suffix rest

/-- Model of `generateVanityKeypair(ctx, suffix, workers)` from `src/main.go`.

`ctxCancelled` records which arm of the final `select` fires: `true` means
`ctx.Done()` wins before any worker delivers (the call returns `Keypair{}`
and the non-nil `ctx.Err()`, modelled by the `true` error flag); `false`
means a worker's match is received. `streams` gives each worker's sampled
keypairs in schedule order and `winner` is the index of the worker whose
first match reaches the channel first; `none` models a call that never
returns (no cancellation and no worker ever matches). -/
def generateVanityKeypair (ctxCancelled : Bool) (suffix : String)
    (streams : List (List Keypair)) (winner : Nat) : Option (Keypair × Bool) :=
  let suf := trimSpace suffix
  if ctxCancelled then
    some (Keypair.zero, true)
  else
    match firstMatch suf (streams.getD winner []) with
    | some kp => some (kp, false)
    | none => none

/-- Characters emitted by `base58.Encode` (alphabet of `mr-tron/base58`). -/
def base58Alphabet : List Char :=
  "123456789ABCDEFGHJKLMNPQRSTUVWXYZabcdefghijkmnopqrstuvwxyz".data

/-- A string made only of base58 alphabet characters, as every public-key
encoding produced by the sampler is. -/
def isBase58Str (s : String) : Bool :=
  s.data.all (fun c => base58Alphabet.contains c)

/- ### Basic lemmas about the suffix predicates -/

theorem firstMatch_sound (suffix : String) :
    ∀ (l : List Keypair) (kp : Keypair),
      firstMatch suffix l = some kp → hasSuffix kp.Pub suffix = true := by
  intro l
  induction l with
  | nil => intro kp h; simp [firstMatch] at h
  | cons a rest ih =>
      intro kp h
      by_cases ha : hasSuffix a.Pub suffix = true
      · simp [firstMatch, ha] at h
        subst h; exact ha
      · simp [firstMatch, ha] at h
        exact ih kp h

theorem firstMatch_isSome_of_mem (suffix : String) :
    ∀ (l : List Keypair) (kp : Keypair), kp ∈ l →
      hasSuffix kp.Pub suffix = true → ∃ kp', firstMatch suffix l = some kp' := by
  intro l
  induction l with
  | nil => intro kp h; simp at h
  | cons a rest ih =>
      intro kp hmem hsuf
      by_cases ha : hasSuffix a.Pub suffix = true
      · exact ⟨a, by simp [firstMatch, ha]⟩
      · rcases List.mem_cons.mp hmem with rfl | hrest
        · exact absurd hsuf ha
        · rcases ih kp hrest hsuf with ⟨kp', hkp'⟩
          exact ⟨kp', by simp [firstMatch, ha, hkp']⟩

theorem dropWhile_eq_self_of_not (p : Char → Bool) :
    ∀ l : List Char, (∀ c ∈ l, p c = false) → List.dropWhile p l = l := by
  intro l h
  cases l with
  | nil => rfl
  | cons a rest =>
      have ha : p a = false := h a (List.mem_cons_self a rest)
      simp [List.dropWhile, ha]

/-- Trimming does nothing to a string with no whitespace characters. -/
theorem trimSpace_eq_self (s : String)
    (h : ∀ c ∈ s.data, isSpaceChar c = false) : trimSpace s = s := by
  unfold trimSpace
  rw [dropWhile_eq_self_of_not isSpaceChar s.data h,
      dropWhile_eq_self_of_not isSpaceChar s.data.reverse
        (fun c hc => h c (List.mem_reverse.mp hc)),
      List.reverse_reverse]

theorem base58_not_space : ∀ c ∈ base58Alphabet, isSpaceChar c = false := by
  decide

/- ### Claim theorems for the search -/

/-- C10: the older variant's guarded tail comparison
(`len(pub) >= len(suffix) && pub[len(pub)-len(suffix):] == suffix`) agrees
with `strings.HasSuffix(pub, suffix)` on every pair of strings. -/
theorem tailMatchOld_eq_hasSuffix (pub suffix : String) :
    tailMatchOld pub suffix = hasSuffix pub suffix := by
  have h : tailMatchOld pub suffix = true ↔ hasSuffix pub suffix = true := by
    simp only [tailMatchOld, hasSuffix, Bool.and_eq_true, decide_eq_true_eq,
      List.isSuffixOf_iff_suffix]
    constructor
    · rintro ⟨_, hdrop⟩
      rw [List.suffix_iff_eq_drop]
      exact hdrop.symm
    · intro hs
      exact ⟨hs.length_le, (List.suffix_iff_eq_drop.mp hs).symm⟩
  cases h1 : tailMatchOld pub suffix
  · cases h2 : hasSuffix pub suffix
    · rfl
    · exact absurd (h.mpr h2) (by simp [h1])
  · exact (h.mp h1).symm

/-- C1 counterexample: for the suffix S = "a " the search accepts and returns
a keypair whose public encoding "aa" does not end with S, because the code
matches against `strings.TrimSpace(S)` = "a". -/
theorem generateVanityKeypair_not_suffix_counterexample :
    generateVanityKeypair false "a " [[⟨"k", "aa"⟩]] 0 =
      some (⟨"k", "aa"⟩, false) ∧
    hasSuffix "aa" "a " = false := by
  constructor
  · decide
  · decide

/-- C1 (amended): every keypair returned by a successful call to
`generateVanityKeypair` with suffix S has a public encoding ending with
`strings.TrimSpace(S)`; when S has no leading or trailing whitespace this is
exactly "ends with S". A cancelled call is not successful, so the statement
quantifies over both select outcomes. -/
theorem generateVanityKeypair_suffix_sound (c : Bool) (suffix : String)
    (streams : List (List Keypair)) (winner : Nat) (kp : Keypair)
    (h : generateVanityKeypair c suffix streams winner = some (kp, false)) :
    hasSuffix kp.Pub (trimSpace suffix) = true := by
  cases c with
  | true => simp [generateVanityKeypair] at h
  | false =>
      simp only [generateVanityKeypair, if_neg (by decide : ¬false = true)] at h
      rcases h1 : firstMatch (trimSpace suffix) (streams.getD winner []) with
        _ | kp'
      · rw [h1] at h; simp at h
      · rw [h1] at h
        simp at h
        rcases h with ⟨rfl, _⟩
        exact firstMatch_sound _ _ _ h1

/-- Witness for the amended C1 at a concrete input. -/
theorem generateVanityKeypair_suffix_sound_witness :
    hasSuffix (Keypair.mk "p" "az").Pub (trimSpace "z") = true :=
  generateVanityKeypair_suffix_sound false "z" [[⟨"p", "az"⟩]] 0 ⟨"p", "az"⟩
    (by decide)

/-- C4: when the cancellation token fires before any worker delivers a match
(the `ctx.Done()` arm of the select wins), the call returns the zero value
`Keypair{}` — no generated key material — together with a non-nil error
(`ctx.Err()`, modelled by the `true` flag). -/
theorem generateVanityKeypair_cancelled (suffix : String)
    (streams : List (List Keypair)) (winner : Nat) :
    generateVanityKeypair true suffix streams winner =
      some (Keypair.zero, true) ∧
    Keypair.zero.Priv = "" ∧ Keypair.zero.Pub = "" :=
  ⟨rfl, rfl, rfl⟩

/-- C8: with at least one worker, no cancellation, and a sampler that
eventually produces a public encoding ending with S (true of every worker
stream, as with the degenerate S = ""), the search terminates successfully
and its result ends with S. Real sampler output is base58, which the
hypothesis `hb58` records; it rules out whitespace in matched encodings, so
trimming S cannot lose the match. -/
theorem generateVanityKeypair_terminates (suffix : String)
    (streams : List (List Keypair)) (winner : Nat)
    (hW : 1 ≤ streams.length) (hwin : winner < streams.length)
    (hb58 : ∀ l ∈ streams, ∀ kp ∈ l, isBase58Str kp.Pub = true)
    (hmatch : ∀ l ∈ streams, ∃ kp ∈ l, hasSuffix kp.Pub suffix = true) :
    ∃ kp, generateVanityKeypair false suffix streams winner =
            some (kp, false) ∧
          hasSuffix kp.Pub suffix = true := by
  have hsl : streams.getD winner [] ∈ streams := by
    rw [List.getD_eq_getElem _ _ hwin]
    exact List.getElem_mem hwin
  rcases hmatch _ hsl with ⟨kp, hkpmem, hkpsuf⟩
  have hpub58 : isBase58Str kp.Pub = true := hb58 _ hsl kp hkpmem
  have hsufsub : suffix.data <:+ kp.Pub.data :=
    List.isSuffixOf_iff_suffix.mp hkpsuf
  have hnospace : ∀ c ∈ suffix.data, isSpaceChar c = false := by
    intro c hc
    have hcpub : c ∈ kp.Pub.data := hsufsub.mem hc
    have : base58Alphabet.contains c = true := by
      have := List.all_eq_true.mp hpub58 c hcpub
      simpa using this
    exact base58_not_space c (List.elem_iff.mp this)
  have htrim : trimSpace suffix = suffix := trimSpace_eq_self suffix hnospace
  rcases firstMatch_isSome_of_mem suffix _ kp hkpmem hkpsuf with ⟨kp', hkp'⟩
  refine ⟨kp', ?_, firstMatch_sound _ _ _ hkp'⟩
  simp only [generateVanityKeypair, htrim, hkp']
  rfl

/-- Witness for C8 at a concrete input: one worker whose first sample already
ends with the suffix "z". -/
theorem generateVanityKeypair_terminates_witness :
    ∃ kp, generateVanityKeypair false "z" [[⟨"p", "az"⟩]] 0 =
            some (kp, false) ∧
          hasSuffix kp.Pub "z" = true :=
  generateVanityKeypair_terminates "z" [[⟨"p", "az"⟩]] 0
    (by decide) (by decide)
    (by intro l hl kp hkp; simp at hl; subst hl; simp at hkp; subst hkp; decide)
    (by intro l hl; simp at hl; subst hl
        exact ⟨⟨"p", "az"⟩, by decide, by decide⟩)

/- ### The key store and the pool-maintenance loop -/

/-- Model of the gorm row `TokenKey` from `src/main.go`. `CreatedAt` is
filled in by gorm's `autoCreateTime` on the server side and no claim observes
it, so it is not carried. -/
structure TokenKey where
  ID : String
  PrivateKey : String
  PublicKey : String
  IsPicked : Bool
deriving DecidableEq, Repr

/-- The `token_key` table: the rows currently stored. -/
structure Store where
  rows : List TokenKey
deriving DecidableEq, Repr

/-- Model of `countUnpicked(db)` on success:
`SELECT count(*) FROM token_key WHERE is_picked = false`. The claims assume
no external consumer flips `is_picked` during an episode, so the successful
result is exactly this count. -/
def countUnpickedPure (st : Store) : Nat :=
  (st.rows.filter (fun r => !r.IsPicked)).length

/-- Number of stored rows carrying a given public key. -/
def pubCount (st : Store) (pub : String) : Nat :=
  (st.rows.filter (fun r => r.PublicKey == pub)).length

/-- Model of the insert the maintainer issues:
`db.Clauses(clause.OnConflict{Columns: public_key, DoNothing: true}).Create(&newKey)`.
A conflicting public key is a no-op success by construction; transient
database failures are injected separately by the environment oracle, so the
pure semantics never reaches the `Except.error` constructor. -/
def insertIfAbsent (st : Store) (k : TokenKey) : Except String Store :=
  if st.rows.any (fun r => r.PublicKey == k.PublicKey) then Except.ok st
  else Except.ok ⟨st.rows ++ [k]⟩

/-- The row the maintainer builds from a search result:
`TokenKey{ID: uuid.NewString(), PrivateKey: kp.Priv, PublicKey: kp.Pub, IsPicked: false}`. -/
def mkNewKey (id : String) (kp : Keypair) : TokenKey :=
  ⟨id, kp.Priv, kp.Pub, false⟩

/-- Observable actions of one pass of `maintainUnpickedKeys`, used to state
which calls and sleeps a path performs. -/
inductive Action
  | countCall | searchCall | insertCall
  | logError
  | sleepBackoff10 | sleepBackoff1 | sleepMain
deriving DecidableEq, Repr

/-- Environment oracle: which `countUnpicked` calls fail, which inserts fail
transiently, what each search attempt's workers sample and which worker wins,
and the uuid generated for each attempt. Indices count calls of each kind. -/
structure Env where
  countErr : Nat → Bool
  insertErr : Nat → Bool
  streams : Nat → List (List Keypair)
  winner : Nat → Nat
  newId : Nat → String

/-- Per-kind call counters threaded through the loop: `nc` counts
`countUnpicked` calls, `ni` insert calls, `ns` search attempts. -/
structure Ctr where
  nc : Nat
  ni : Nat
  ns : Nat
deriving DecidableEq, Repr

/-- Model of the inner `for c < int64(target)` loop of `maintainUnpickedKeys`
(the `Filling` episode). Each iteration: fresh context, search (the context
is cancelled only after the call returns, hence the `false` cancellation
flag), on search error log and back off 1s and retry; otherwise insert with
on-conflict-do-nothing (transient failure → log and retry), then re-count
(`break` out of the loop on a re-count error). `none` models an episode that
never completes within `fuel` iterations (the Go loop has no bound). -/
def fillingLoop (env : Env) (target : Nat) (suffix : String) :
    Nat → Store → Nat → Ctr → Option (Store × List Action × Ctr)
  | 0, _, _, _ => none
  | fuel + 1, st, c, ctr =>
    if target ≤ c then some (st, [], ctr)
    else
      match generateVanityKeypair false suffix (env.streams ctr.ns)
          (env.winner ctr.ns) with
      | none => none
      | some (kp, e) =>
        let ctr1 : Ctr := ⟨ctr.nc, ctr.ni, ctr.ns + 1⟩
        if e then
          match fillingLoop env target suffix fuel st c ctr1 with
          | none => none
          | some (st', tr, ctr') =>
              some (st', Action.searchCall :: Action.logError ::
                Action.sleepBackoff1 :: tr, ctr')
        else
          let row := mkNewKey (env.newId ctr.ns) kp
          if env.insertErr ctr1.ni then
            match fillingLoop env target suffix fuel st c
                ⟨ctr1.nc, ctr1.ni + 1, ctr1.ns⟩ with
            | none => none
            | some (st', tr, ctr') =>
                some (st', Action.searchCall :: Action.insertCall ::
                  Action.logError :: tr, ctr')
          else
            match insertIfAbsent st row with
            | Except.error _ => none
            | Except.ok st1 =>
              let ctr2 : Ctr := ⟨ctr1.nc, ctr1.ni + 1, ctr1.ns⟩
              if env.countErr ctr2.nc then
                some (st1, [Action.searchCall, Action.insertCall,
                  Action.countCall, Action.logError],
                  ⟨ctr2.nc + 1, ctr2.ni, ctr2.ns⟩)
              else
                match fillingLoop env target suffix fuel st1
                    (countUnpickedPure st1) ⟨ctr2.nc + 1, ctr2.ni, ctr2.ns⟩ with
                | none => none
                | some (st', tr, ctr') =>
                    some (st', Action.searchCall :: Action.insertCall ::
                      Action.countCall :: tr, ctr')

/-- Model of one iteration of the outer `for` loop of
`maintainUnpickedKeys`: count (on error: log, 10s backoff, back to the top),
sleep when the count has reached the target, otherwise run a `Filling`
episode and then sleep. Every completed iteration ends back at `Checking`;
the body has no return, panic or `log.Fatal`, so `some` is the only
completed outcome. -/
def maintainIteration (env : Env) (target : Nat) (suffix : String)
    (fuel : Nat) (st : Store) (ctr : Ctr) :
    Option (Store × List Action × Ctr) :=
  if env.countErr ctr.nc then
    some (st, [Action.countCall, Action.logError, Action.sleepBackoff10],
      ⟨ctr.nc + 1, ctr.ni, ctr.ns⟩)
  else
    let c := countUnpickedPure st
    let ctr1 : Ctr := ⟨ctr.nc + 1, ctr.ni, ctr.ns⟩
    if target ≤ c then some (st, [Action.countCall, Action.sleepMain], ctr1)
    else
      match fillingLoop env target suffix fuel st c ctr1 with
      | none => none
      | some (st', tr, ctr') =>
          some (st', Action.countCall :: (tr ++ [Action.sleepMain]), ctr')

/-- The outer `for` loop run for a given number of iterations, concatenating
the action traces. -/
def maintainRun (env : Env) (target : Nat) (suffix : String) (fuel : Nat) :
    Nat → Store → Ctr → Option (Store × List Action × Ctr)
  | 0, st, ctr => some (st, [], ctr)
  | k + 1, st, ctr =>
    match maintainIteration env target suffix fuel st ctr with
    | none => none
    | some (st1, tr, ctr1) =>
      match maintainRun env target suffix fuel k st1 ctr1 with
      | none => none
      | some (st2, tr2, ctr2) => some (st2, tr ++ tr2, ctr2)

/-- All-success environment for concrete runs: no store errors, every search
attempt has one worker whose first sample is `⟨"p", "az"⟩`. -/
def envOk : Env :=
  ⟨fun _ => false, fun _ => false, fun _ => [[⟨"p", "az"⟩]], fun _ => 0,
   fun n => toString n⟩

/-- Environment whose first `countUnpicked` call fails and later ones
succeed. -/
def envErrOnce : Env :=
  ⟨fun n => n == 0, fun _ => false, fun _ => [[⟨"p", "az"⟩]], fun _ => 0,
   fun n => toString n⟩

/-- Environment whose second `countUnpicked` call (the re-count inside the
Filling episode) fails. -/
def envRecountErr : Env :=
  ⟨fun n => n == 1, fun _ => false, fun _ => [[⟨"p", "az"⟩]], fun _ => 0,
   fun n => toString n⟩

/-- A store holding five unpicked rows with distinct public keys. -/
def sampleStore5 : Store :=
  ⟨(List.range 5).map (fun i => ⟨toString i, toString i, toString i, false⟩)⟩

/- ### Claim theorems for the store and the maintenance loop -/

/-- C3: the maintainer's insert is idempotent on the public key. It always
returns success; when a row with the same public key already exists it
leaves the store unchanged (so a unique key stays stored exactly once), and
otherwise it appends exactly the new row, which carries `IsPicked = false`,
making the public key stored exactly once. -/
theorem insertIfAbsent_idempotent (st : Store) (id : String) (kp : Keypair) :
    ∃ st1, insertIfAbsent st (mkNewKey id kp) = Except.ok st1 ∧
      (1 ≤ pubCount st kp.Pub → st1 = st) ∧
      (pubCount st kp.Pub = 0 →
        st1.rows = st.rows ++ [mkNewKey id kp] ∧
        pubCount st1 kp.Pub = 1 ∧ (mkNewKey id kp).IsPicked = false) := by
  by_cases h :
      st.rows.any (fun r => r.PublicKey == (mkNewKey id kp).PublicKey) = true
  · refine ⟨st, by simp [insertIfAbsent, h], fun _ => rfl, fun h0 => ?_⟩
    exfalso
    rcases List.any_eq_true.mp h with ⟨r, hr, hbeq⟩
    have hmem : r ∈ st.rows.filter (fun r => r.PublicKey == kp.Pub) :=
      List.mem_filter.mpr ⟨hr, hbeq⟩
    have hpos : 0 < pubCount st kp.Pub := List.length_pos_of_mem hmem
    omega
  · have hnil : st.rows.filter (fun r => r.PublicKey == kp.Pub) = [] := by
      rw [List.filter_eq_nil_iff]
      intro r hr hbeq
      exact h (List.any_eq_true.mpr ⟨r, hr, hbeq⟩)
    refine ⟨⟨st.rows ++ [mkNewKey id kp]⟩, by simp [insertIfAbsent, h],
      fun h1 => ?_, fun _ => ⟨rfl, ?_, rfl⟩⟩
    · exfalso
      have : pubCount st kp.Pub = 0 := by
        unfold pubCount; rw [hnil]; rfl
      omega
    · unfold pubCount
      simp only [List.filter_append, hnil, List.nil_append]
      simp [mkNewKey]

/-- C5: when `countUnpicked` succeeds with a value at least the target, the
`Checking` state goes directly to `Sleeping`: the iteration performs exactly
one count call and the main sleep, and in particular no search and no insert
call. -/
theorem checking_at_target_sleeps (env : Env) (target : Nat) (suffix : String)
    (fuel : Nat) (st : Store) (ctr : Ctr)
    (hok : env.countErr ctr.nc = false)
    (hc : target ≤ countUnpickedPure st) :
    maintainIteration env target suffix fuel st ctr =
      some (st, [Action.countCall, Action.sleepMain],
        ⟨ctr.nc + 1, ctr.ni, ctr.ns⟩) ∧
    Action.searchCall ∉ [Action.countCall, Action.sleepMain] ∧
    Action.insertCall ∉ [Action.countCall, Action.sleepMain] := by
  refine ⟨?_, by decide, by decide⟩
  simp [maintainIteration, hok, hc]

/-- Witness for C5 at the spec's scenario: target 5, a store already holding
five unpicked rows. -/
theorem checking_at_target_sleeps_witness :
    maintainIteration envOk 5 "z" 1 sampleStore5 ⟨0, 0, 0⟩ =
      some (sampleStore5, [Action.countCall, Action.sleepMain], ⟨1, 0, 0⟩) ∧
    Action.searchCall ∉ [Action.countCall, Action.sleepMain] ∧
    Action.insertCall ∉ [Action.countCall, Action.sleepMain] :=
  checking_at_target_sleeps envOk 5 "z" 1 sampleStore5 ⟨0, 0, 0⟩
    (by decide) (by decide)

/-- C6: a failing `countUnpicked` in `Checking` logs the error, backs off the
fixed 10 seconds, leaves the store untouched, and the loop goes back to
`Checking`: the completed iteration composes with any continuation of the
run, so no store error terminates the maintenance loop. -/
theorem countUnpicked_error_recovers (env : Env) (target : Nat)
    (suffix : String) (fuel : Nat) (st : Store) (ctr : Ctr)
    (herr : env.countErr ctr.nc = true) :
    maintainIteration env target suffix fuel st ctr =
      some (st, [Action.countCall, Action.logError, Action.sleepBackoff10],
        ⟨ctr.nc + 1, ctr.ni, ctr.ns⟩) ∧
    (∀ k st2 tr2 ctr2,
      maintainRun env target suffix fuel k st ⟨ctr.nc + 1, ctr.ni, ctr.ns⟩ =
        some (st2, tr2, ctr2) →
      maintainRun env target suffix fuel (k + 1) st ctr =
        some (st2, Action.countCall :: Action.logError ::
          Action.sleepBackoff10 :: tr2, ctr2)) := by
  have hit : maintainIteration env target suffix fuel st ctr =
      some (st, [Action.countCall, Action.logError, Action.sleepBackoff10],
        ⟨ctr.nc + 1, ctr.ni, ctr.ns⟩) := by
    simp [maintainIteration, herr]
  refine ⟨hit, ?_⟩
  intro k st2 tr2 ctr2 hrun
  simp [maintainRun, hit, hrun]

/-- Witness for C6 at the spec's scenario: `countUnpicked` errors once, the
loop logs, backs off 10 seconds and the store is unchanged. -/
theorem countUnpicked_error_recovers_witness :
    maintainIteration envErrOnce 5 "z" 1 sampleStore5 ⟨0, 0, 0⟩ =
      some (sampleStore5,
        [Action.countCall, Action.logError, Action.sleepBackoff10],
        ⟨1, 0, 0⟩) :=
  (countUnpicked_error_recovers envErrOnce 5 "z" 1 sampleStore5 ⟨0, 0, 0⟩
    (by decide)).1

/-- C2 counterexample: PoolTarget 2, empty store, no external consumer. The
first insert succeeds, the re-count errors, the inner loop `break`s and the
episode completes — control reaches the sleep — with only one unpicked row,
below the target. -/
theorem filling_below_target_counterexample :
    maintainIteration envRecountErr 2 "z" 1 ⟨[]⟩ ⟨0, 0, 0⟩ =
      some (⟨[⟨"0", "p", "az", false⟩]⟩,
        [Action.countCall, Action.searchCall, Action.insertCall,
         Action.countCall, Action.logError, Action.sleepMain], ⟨2, 1, 1⟩) ∧
    countUnpickedPure ⟨[⟨"0", "p", "az", false⟩]⟩ = 1 ∧ ¬ (2 ≤ 1) := by
  refine ⟨by decide, by decide, by decide⟩

theorem fillingLoop_reaches_target (env : Env) (target : Nat)
    (suffix : String) (hnoerr : ∀ n, env.countErr n = false) :
    ∀ fuel st c ctr st' tr ctr',
      c = countUnpickedPure st →
      fillingLoop env target suffix fuel st c ctr = some (st', tr, ctr') →
      target ≤ countUnpickedPure st' := by
  intro fuel
  induction fuel with
  | zero =>
      intro st c ctr st' tr ctr' hc h
      simp [fillingLoop] at h
  | succ n ih =>
      intro st c ctr st' tr ctr' hc h
      rw [fillingLoop] at h
      by_cases htc : target ≤ c
      · rw [if_pos htc] at h
        simp only [Option.some.injEq, Prod.mk.injEq] at h
        rcases h with ⟨rfl, -⟩
        exact hc ▸ htc
      · rw [if_neg htc] at h
        rcases hsearch : generateVanityKeypair false suffix
            (env.streams ctr.ns) (env.winner ctr.ns) with _ | ⟨kp, e⟩
        · rw [hsearch] at h; simp at h
        · rw [hsearch] at h
          cases e with
          | true =>
              simp only [if_pos rfl] at h
              rcases hrec : fillingLoop env target suffix n st c
                  ⟨ctr.nc, ctr.ni, ctr.ns + 1⟩ with _ | ⟨stx, trx, ctrx⟩
              · rw [hrec] at h; simp at h
              · rw [hrec] at h
                simp only [Option.some.injEq, Prod.mk.injEq] at h
                rcases h with ⟨rfl, -⟩
                exact ih st c _ _ _ _ hc hrec
          | false =>
              simp only [Bool.false_eq_true, if_neg (by decide : ¬False)] at h
              by_cases hins : env.insertErr (ctr.ni) = true
              · rw [if_pos hins] at h
                rcases hrec : fillingLoop env target suffix n st c
                    ⟨ctr.nc, ctr.ni + 1, ctr.ns + 1⟩ with _ | ⟨stx, trx, ctrx⟩
                · rw [hrec] at h; simp at h
                · rw [hrec] at h
                  simp only [Option.some.injEq, Prod.mk.injEq] at h
                  rcases h with ⟨rfl, -⟩
                  exact ih st c _ _ _ _ hc hrec
              · rw [if_neg hins] at h
                by_cases hdup : st.rows.any (fun r => r.PublicKey ==
                    (mkNewKey (env.newId ctr.ns) kp).PublicKey) = true
                · rw [show insertIfAbsent st (mkNewKey (env.newId ctr.ns) kp) =
                      Except.ok st by simp [insertIfAbsent, hdup]] at h
                  rw [hnoerr ctr.nc] at h
                  simp only [Bool.false_eq_true, if_neg (by decide : ¬False)]
                    at h
                  rcases hrec : fillingLoop env target suffix n st
                      (countUnpickedPure st)
                      ⟨ctr.nc + 1, ctr.ni + 1, ctr.ns + 1⟩ with
                      _ | ⟨stx, trx, ctrx⟩
                  · rw [hrec] at h; simp at h
                  · rw [hrec] at h
                    simp only [Option.some.injEq, Prod.mk.injEq] at h
                    rcases h with ⟨rfl, -⟩
                    exact ih st _ _ _ _ _ rfl hrec
                · rw [show insertIfAbsent st (mkNewKey (env.newId ctr.ns) kp) =
                      Except.ok ⟨st.rows ++ [mkNewKey (env.newId ctr.ns) kp]⟩
                      by simp [insertIfAbsent, hdup]] at h
                  rw [hnoerr ctr.nc] at h
                  simp only [Bool.false_eq_true, if_neg (by decide : ¬False)]
                    at h
                  rcases hrec : fillingLoop env target suffix n
                      ⟨st.rows ++ [mkNewKey (env.newId ctr.ns) kp]⟩
                      (countUnpickedPure
                        ⟨st.rows ++ [mkNewKey (env.newId ctr.ns) kp]⟩)
                      ⟨ctr.nc + 1, ctr.ni + 1, ctr.ns + 1⟩ with
                      _ | ⟨stx, trx, ctrx⟩
                  · rw [hrec] at h; simp at h
                  · rw [hrec] at h
                    simp only [Option.some.injEq, Prod.mk.injEq] at h
                    rcases h with ⟨rfl, -⟩
                    exact ih _ _ _ _ _ _ rfl hrec

/-- C2 (amended): provided no `countUnpicked` call errors during the episode
(and no external consumer marks keys picked, which the model's successful
counts already assume), every completed iteration of the maintenance loop —
in particular every completed Filling episode — ends with the stored
unpicked count at least the target. -/
theorem maintain_episode_reaches_target (env : Env) (target : Nat)
    (suffix : String) (fuel : Nat) (st : Store) (ctr : Ctr)
    (st' : Store) (tr : List Action) (ctr' : Ctr)
    (hnoerr : ∀ n, env.countErr n = false)
    (h : maintainIteration env target suffix fuel st ctr =
      some (st', tr, ctr')) :
    target ≤ countUnpickedPure st' := by
  unfold maintainIteration at h
  rw [hnoerr ctr.nc] at h
  simp only [Bool.false_eq_true, if_neg (by decide : ¬False)] at h
  by_cases htc : target ≤ countUnpickedPure st
  · rw [if_pos htc] at h
    simp only [Option.some.injEq, Prod.mk.injEq] at h
    rcases h with ⟨rfl, -⟩
    exact htc
  · rw [if_neg htc] at h
    rcases hrec : fillingLoop env target suffix fuel st
        (countUnpickedPure st) ⟨ctr.nc + 1, ctr.ni, ctr.ns⟩ with
        _ | ⟨stx, trx, ctrx⟩
    · rw [hrec] at h; simp at h
    · rw [hrec] at h
      simp only [Option.some.injEq, Prod.mk.injEq] at h
      rcases h with ⟨rfl, -⟩
      exact fillingLoop_reaches_target env target suffix hnoerr fuel st
        (countUnpickedPure st) _ _ _ _ rfl hrec

/-- Witness for the amended C2: target 1, empty store, error-free
environment; the episode completes with one unpicked row stored. -/
theorem maintain_episode_reaches_target_witness :
    1 ≤ countUnpickedPure ⟨[⟨"0", "p", "az", false⟩]⟩ :=
  maintain_episode_reaches_target envOk 1 "z" 2 ⟨[]⟩ ⟨0, 0, 0⟩
    ⟨[⟨"0", "p", "az", false⟩]⟩
    [Action.countCall, Action.searchCall, Action.insertCall,
     Action.countCall, Action.sleepMain]
    ⟨2, 1, 1⟩ (fun _ => rfl) (by decide)

/-- C9: the maintainer hands every search a context that is cancelled only
after the call returns (the `false` cancellation flag), so such a call never
returns a non-nil error; consequently no completed Filling episode ever
performs the 1-second backoff of the search-error branch — that branch is
dead code. -/
theorem search_error_branch_dead (env : Env) (target : Nat)
    (suffix : String) :
    (∀ (streams : List (List Keypair)) (winner : Nat) (kp : Keypair)
        (e : Bool),
        generateVanityKeypair false suffix streams winner = some (kp, e) →
        e = false) ∧
    (∀ fuel st c ctr st' tr ctr',
        fillingLoop env target suffix fuel st c ctr = some (st', tr, ctr') →
        Action.sleepBackoff1 ∉ tr) := by
  have hng : ∀ (suf : String) (streams : List (List Keypair)) (winner : Nat)
      (kp : Keypair) (e : Bool),
      generateVanityKeypair false suf streams winner = some (kp, e) →
      e = false := by
    intro suf streams winner kp e h
    unfold generateVanityKeypair at h
    simp only [Bool.false_eq_true, if_neg (by decide : ¬False)] at h
    rcases hfm : firstMatch (trimSpace suf) (streams.getD winner []) with
        _ | kp'
    · rw [hfm] at h; simp at h
    · rw [hfm] at h
      simp only [Option.some.injEq, Prod.mk.injEq] at h
      exact h.2.symm
  refine ⟨hng suffix, ?_⟩
  intro fuel
  induction fuel with
  | zero =>
      intro st c ctr st' tr ctr' h
      simp [fillingLoop] at h
  | succ n ih =>
      intro st c ctr st' tr ctr' h
      rw [fillingLoop] at h
      by_cases htc : target ≤ c
      · rw [if_pos htc] at h
        simp only [Option.some.injEq, Prod.mk.injEq] at h
        rcases h with ⟨-, rfl, -⟩
        simp
      · rw [if_neg htc] at h
        rcases hsearch : generateVanityKeypair false suffix
            (env.streams ctr.ns) (env.winner ctr.ns) with _ | ⟨kp, e⟩
        · rw [hsearch] at h; simp at h
        · rw [hsearch] at h
          cases e with
          | true => exact absurd (hng suffix _ _ _ _ hsearch) (by decide)
          | false =>
              simp only [Bool.false_eq_true, if_neg (by decide : ¬False)] at h
              by_cases hins : env.insertErr (ctr.ni) = true
              · rw [if_pos hins] at h
                rcases hrec : fillingLoop env target suffix n st c
                    ⟨ctr.nc, ctr.ni + 1, ctr.ns + 1⟩ with _ | ⟨stx, trx, ctrx⟩
                · rw [hrec] at h; simp at h
                · rw [hrec] at h
                  simp only [Option.some.injEq, Prod.mk.injEq] at h
                  rcases h with ⟨-, rfl, -⟩
                  have := ih st c _ _ _ _ hrec
                  simp [List.mem_cons, this]
              · rw [if_neg hins] at h
                by_cases hdup : st.rows.any (fun r => r.PublicKey ==
                    (mkNewKey (env.newId ctr.ns) kp).PublicKey) = true
                · rw [show insertIfAbsent st (mkNewKey (env.newId ctr.ns) kp) =
                      Except.ok st by simp [insertIfAbsent, hdup]] at h
                  by_cases hce : env.countErr ctr.nc = true
                  · simp only [hce, eq_self_iff_true, if_true] at h
                    simp only [Option.some.injEq, Prod.mk.injEq] at h
                    rcases h with ⟨-, rfl, -⟩
                    simp
                  · simp only [hce, if_false] at h
                    rcases hrec : fillingLoop env target suffix n st
                        (countUnpickedPure st)
                        ⟨ctr.nc + 1, ctr.ni + 1, ctr.ns + 1⟩ with
                        _ | ⟨stx, trx, ctrx⟩
                    · rw [hrec] at h; simp at h
                    · rw [hrec] at h
                      simp only [Option.some.injEq, Prod.mk.injEq] at h
                      rcases h with ⟨-, rfl, -⟩
                      have := ih st _ _ _ _ _ hrec
                      simp [List.mem_cons, this]
                · rw [show insertIfAbsent st (mkNewKey (env.newId ctr.ns) kp) =
                      Except.ok ⟨st.rows ++ [mkNewKey (env.newId ctr.ns) kp]⟩
                      by simp [insertIfAbsent, hdup]] at h
                  by_cases hce : env.countErr ctr.nc = true
                  · simp only [hce, eq_self_iff_true, if_true] at h
                    simp only [Option.some.injEq, Prod.mk.injEq] at h
                    rcases h with ⟨-, rfl, -⟩
                    simp
                  · simp only [hce, if_false] at h
                    rcases hrec : fillingLoop env target suffix n
                        ⟨st.rows ++ [mkNewKey (env.newId ctr.ns) kp]⟩
                        (countUnpickedPure
                          ⟨st.rows ++ [mkNewKey (env.newId ctr.ns) kp]⟩)
                        ⟨ctr.nc + 1, ctr.ni + 1, ctr.ns + 1⟩ with
                        _ | ⟨stx, trx, ctrx⟩
                    · rw [hrec] at h; simp at h
                    · rw [hrec] at h
                      simp only [Option.some.injEq, Prod.mk.injEq] at h
                      rcases h with ⟨-, rfl, -⟩
                      have := ih _ _ _ _ _ _ hrec
                      simp [List.mem_cons, this]

/-- Witness for C9: a concrete completed episode whose trace contains no
1-second backoff. -/
theorem search_error_branch_dead_witness :
    Action.sleepBackoff1 ∉
      [Action.searchCall, Action.insertCall, Action.countCall] :=
  (search_error_branch_dead envOk 1 "z").2 2 ⟨[]⟩ 0 ⟨1, 0, 0⟩
    ⟨[⟨"0", "p", "az", false⟩]⟩
    [Action.searchCall, Action.insertCall, Action.countCall] ⟨2, 1, 1⟩
    (by decide)

/- ### C7: worker termination and result delivery -/

/-- Status of one worker goroutine inside a search call: still in its
sampling loop with the remaining sample stream, blocked on the channel send
`found <- kp`, or returned. -/
inductive WStatus
  | looping (pending : List Keypair)
  | blocked (kp : Keypair)
  | done
deriving DecidableEq, Repr

/-- Global state of one `generateVanityKeypair` call together with its
caller in `maintainUnpickedKeys`: the workers, the one-slot buffer of the
`found` channel, the main select's outcome (`none` while it still waits),
and whether `cancel()` has run. -/
structure SState where
  workers : List WStatus
  buf : Option Keypair
  mainRet : Option (Keypair × Bool)
  ctxDone : Bool
deriving DecidableEq, Repr

/-- Replace worker `i`'s status. -/
def setWorker (ws : List WStatus) (i : Nat) (w : WStatus) : List WStatus :=
  ws.set i w

/-- Interleaving semantics of `generateVanityKeypair` (suffix already
trimmed) as called from `maintainUnpickedKeys`. A worker at its select takes
a ready `ctx.Done()` over `default`; in the `default` branch a matching
sample leads to the unconditional send `found <- kp`, which fills an empty
one-slot buffer and otherwise blocks until a slot frees; the main select
either receives a buffered value (nil error) or, once the context is done,
returns the zero keypair with `ctx.Err()`; the caller runs `cancel()` only
after the call has returned. -/
inductive Step (suffix : String) : SState → SState → Prop
  | sampleNoMatch (s : SState) (i : Nat) (kp : Keypair) (rest : List Keypair)
      (hw : s.workers[i]? = some (WStatus.looping (kp :: rest)))
      (hc : s.ctxDone = false)
      (hm : hasSuffix kp.Pub suffix = false) :
      Step suffix s
        { s with workers := setWorker s.workers i (WStatus.looping rest) }
  | sampleMatchSend (s : SState) (i : Nat) (kp : Keypair)
      (rest : List Keypair)
      (hw : s.workers[i]? = some (WStatus.looping (kp :: rest)))
      (hc : s.ctxDone = false)
      (hm : hasSuffix kp.Pub suffix = true)
      (hb : s.buf = none) :
      Step suffix s
        { s with workers := setWorker s.workers i WStatus.done,
                 buf := some kp }
  | sampleMatchBlock (s : SState) (i : Nat) (kp : Keypair)
      (rest : List Keypair) (b : Keypair)
      (hw : s.workers[i]? = some (WStatus.looping (kp :: rest)))
      (hc : s.ctxDone = false)
      (hm : hasSuffix kp.Pub suffix = true)
      (hb : s.buf = some b) :
      Step suffix s
        { s with workers := setWorker s.workers i (WStatus.blocked kp) }
  | unblock (s : SState) (i : Nat) (kp : Keypair)
      (hw : s.workers[i]? = some (WStatus.blocked kp))
      (hb : s.buf = none) :
      Step suffix s
        { s with workers := setWorker s.workers i WStatus.done,
                 buf := some kp }
  | observeCancel (s : SState) (i : Nat) (p : List Keypair)
      (hw : s.workers[i]? = some (WStatus.looping p))
      (hc : s.ctxDone = true) :
      Step suffix s { s with workers := setWorker s.workers i WStatus.done }
  | mainRecv (s : SState) (kp : Keypair)
      (hr : s.mainRet = none) (hb : s.buf = some kp) :
      Step suffix s { s with buf := none, mainRet := some (kp, false) }
  | mainCancel (s : SState)
      (hr : s.mainRet = none) (hc : s.ctxDone = true) :
      Step suffix s { s with mainRet := some (Keypair.zero, true) }
  | fireCancel (s : SState) (hr : s.mainRet ≠ none) :
      Step suffix s { s with ctxDone := true }

/-- Reachability under the interleaving semantics. -/
def Reach (suffix : String) : SState → SState → Prop :=
  Relation.ReflTransGen (Step suffix)

/-- Start of a call: every worker looping on its stream, channel empty, main
waiting, context live. -/
def initState (streams : List (List Keypair)) : SState :=
  ⟨streams.map WStatus.looping, none, none, false⟩

/-- Worker `i` is leaked: it stays blocked on the send in every state
reachable from `s`, in particular it never terminates. -/
def foreverBlocked (suffix : String) (s : SState) (i : Nat) : Prop :=
  ∀ t, Reach suffix s t → ∃ kp, t.workers[i]? = some (WStatus.blocked kp)

theorem step_preserves_blocked (suffix : String) (kp : Keypair)
    (s t : SState) (hstep : Step suffix s t)
    (h1 : s.mainRet ≠ none) (h2 : s.buf ≠ none)
    (h3 : s.workers[2]? = some (WStatus.blocked kp)) :
    t.mainRet ≠ none ∧ t.buf ≠ none ∧
    t.workers[2]? = some (WStatus.blocked kp) := by
  cases hstep with
  | sampleNoMatch i kpx rest hw hc hm =>
      refine ⟨h1, h2, ?_⟩
      have hne : i ≠ 2 := by
        intro he; rw [he, h3] at hw; cases hw
      simpa [setWorker, List.getElem?_set_ne hne] using h3
  | sampleMatchSend i kpx rest hw hc hm hb => exact absurd hb h2
  | sampleMatchBlock i kpx rest b hw hc hm hb =>
      refine ⟨h1, h2, ?_⟩
      have hne : i ≠ 2 := by
        intro he; rw [he, h3] at hw; cases hw
      simpa [setWorker, List.getElem?_set_ne hne] using h3
  | unblock i kpx hw hb => exact absurd hb h2
  | observeCancel i p hw hc =>
      refine ⟨h1, h2, ?_⟩
      have hne : i ≠ 2 := by
        intro he; rw [he, h3] at hw; cases hw
      simpa [setWorker, List.getElem?_set_ne hne] using h3
  | mainRecv kpx hr hb => exact absurd hr h1
  | mainCancel hr hc => exact absurd hr h1
  | fireCancel hr => exact ⟨h1, h2, h3⟩

theorem reach_preserves_blocked (suffix : String) (kp : Keypair)
    (s t : SState) (hreach : Reach suffix s t)
    (h : s.mainRet ≠ none ∧ s.buf ≠ none ∧
      s.workers[2]? = some (WStatus.blocked kp)) :
    t.mainRet ≠ none ∧ t.buf ≠ none ∧
    t.workers[2]? = some (WStatus.blocked kp) := by
  induction hreach with
  | refl => exact h
  | tail hab hbc ih =>
      exact step_preserves_blocked suffix kp _ _ hbc ih.1 ih.2.1 ih.2.2

def kpA : Keypair := ⟨"A", "1"⟩

def kpB : Keypair := ⟨"B", "2"⟩

def kpC : Keypair := ⟨"C", "3"⟩

/-- The stuck state: a match was delivered and returned, a second match sits
unread in the buffer, cancellation has fired, and the third worker is
blocked on its send. -/
def c7Stuck : SState :=
  ⟨[WStatus.done, WStatus.done, WStatus.blocked kpC], some kpB,
    some (kpA, false), true⟩

theorem c7_stuck_reachable :
    Reach "" (initState [[kpA], [kpB], [kpC]]) c7Stuck := by
  have h1 : Step "" (initState [[kpA], [kpB], [kpC]])
      ⟨[WStatus.done, WStatus.looping [kpB], WStatus.looping [kpC]],
        some kpA, none, false⟩ :=
    Step.sampleMatchSend _ 0 kpA [] rfl rfl (by decide) rfl
  have h2 : Step ""
      ⟨[WStatus.done, WStatus.looping [kpB], WStatus.looping [kpC]],
        some kpA, none, false⟩
      ⟨[WStatus.done, WStatus.looping [kpB], WStatus.looping [kpC]],
        none, some (kpA, false), false⟩ :=
    Step.mainRecv _ kpA rfl rfl
  have h3 : Step ""
      ⟨[WStatus.done, WStatus.looping [kpB], WStatus.looping [kpC]],
        none, some (kpA, false), false⟩
      ⟨[WStatus.done, WStatus.done, WStatus.looping [kpC]],
        some kpB, some (kpA, false), false⟩ :=
    Step.sampleMatchSend _ 1 kpB [] rfl rfl (by decide) rfl
  have h4 : Step ""
      ⟨[WStatus.done, WStatus.done, WStatus.looping [kpC]],
        some kpB, some (kpA, false), false⟩
      ⟨[WStatus.done, WStatus.done, WStatus.blocked kpC],
        some kpB, some (kpA, false), false⟩ :=
    Step.sampleMatchBlock _ 2 kpC [] kpB rfl rfl (by decide) rfl
  have h5 : Step ""
      ⟨[WStatus.done, WStatus.done, WStatus.blocked kpC],
        some kpB, some (kpA, false), false⟩ c7Stuck :=
    Step.fireCancel _ (by simp)
  exact Relation.ReflTransGen.head h1 (Relation.ReflTransGen.head h2
    (Relation.ReflTransGen.head h3 (Relation.ReflTransGen.head h4
      (Relation.ReflTransGen.single h5))))

/-- C7 refuted on the code: with three workers and the empty suffix, a
schedule exists in which a first match is published and returned, a losing
worker's later match fills the one-slot buffer, and a third matching worker
blocks on `found <- kp`; after the caller's `cancel()` fires that worker
stays blocked in every reachable future state — a leaked goroutine that
never observes cancellation, because the send (unlike the older variant's
select-with-default) is unconditional. -/
theorem worker_send_blocks_counterexample :
    Reach "" (initState [[kpA], [kpB], [kpC]]) c7Stuck ∧
    c7Stuck.mainRet = some (kpA, false) ∧
    c7Stuck.ctxDone = true ∧
    foreverBlocked "" c7Stuck 2 := by
  refine ⟨c7_stuck_reachable, rfl, rfl, ?_⟩
  intro t ht
  exact ⟨kpC, (reach_preserves_blocked "" kpC c7Stuck t ht
    ⟨by simp [c7Stuck], by simp [c7Stuck], rfl⟩).2.2⟩

end VanityKeyGen
